import Mathlib

/-!
Verification development for the A5 DuckDB extension (`a5_extension.cpp`).

The extension registers scalar functions over 64-bit A5 cell identifiers.
Each C++ wrapper validates its arguments, calls into the Rust `a5` crate
through a C ABI, and converts the (value, error-pointer) result structs into
either a value or a thrown `InvalidInputException`.  We embed the wrappers as
pure Lean functions returning `Except String α` (the error string plays the
role of the thrown exception message), parameterised over the behaviour of
the Rust calls.  The Rust crate itself is not part of this repository, so
where a claim depends on it the corresponding function is modelled from the
specification (marked `Modelled from the spec:`).
-/

namespace A5

/-- `#define MAX_RESOLUTION 30` from the source. -/
def MAX_RESOLUTION : Int := 30

/-- `ValidateResolution` from the source: throws when the resolution is
outside `[0, 30]`, with the calling function's name prefixed to the
message. -/
def ValidateResolution (resolution : Int) (function_name : String) :
    Except String Unit :=
  if resolution < 0 ∨ resolution > MAX_RESOLUTION then
    .error (function_name ++ ": Resolution must be between 0 and 30")
  else
    .ok ()

/-- `A5CellAreaFun`: validates the resolution, then returns
`a5_cell_area(resolution)`.  The Rust call (returning a `double`, which we
keep abstract as `ℚ`) is a parameter. -/
def A5CellAreaFun (a5_cell_area : Int → ℚ) (resolution : Int) :
    Except String ℚ :=
  match ValidateResolution resolution "a5_cell_area" with
  | .error e => .error e
  | .ok _ => .ok (a5_cell_area resolution)

/-- `A5GetNumCellsFun`: validates the resolution, then returns
`a5_get_num_cells(resolution)` (a `uint64_t`, modelled as `Nat`). -/
def A5GetNumCellsFun (a5_get_num_cells : Int → Nat) (resolution : Int) :
    Except String Nat :=
  match ValidateResolution resolution "a5_get_num_cells" with
  | .error e => .error e
  | .ok _ => .ok (a5_get_num_cells resolution)

/-- `A5GetResolutionFun`: applies `a5_get_resolution` to the cell with no
validation and no error branch (the Rust function returns a plain
`int32_t`). -/
def A5GetResolutionFun (a5_get_resolution : Nat → Int) (cell : Nat) :
    Except String Int :=
  .ok (a5_get_resolution cell)

/-- `A5LonLatToCellFun`: validates the resolution, calls
`a5_lon_lat_to_cell`, and rethrows a Rust error with the function name
prefixed (`ThrowRustError`).  The cell-identifier type is kept generic. -/
def A5LonLatToCellFun {C : Type} (a5_lon_lat_to_cell : ℚ → ℚ → Int → Except String C)
    (lon lat : ℚ) (resolution : Int) : Except String C :=
  match ValidateResolution resolution "a5_lonlat_to_cell" with
  | .error e => .error e
  | .ok _ =>
    match a5_lon_lat_to_cell lon lat resolution with
    | .error e => .error ("a5_lonlat_to_cell: " ++ e)
    | .ok v => .ok v

/-- `A5CellToParentFun`: validates the target resolution, calls
`a5_cell_to_parent`, and rethrows a Rust error with the function name
prefixed. -/
def A5CellToParentFun {C : Type} (a5_cell_to_parent : C → Int → Except String C)
    (cell : C) (parent_resolution : Int) : Except String C :=
  match ValidateResolution parent_resolution "a5_cell_to_parent" with
  | .error e => .error e
  | .ok _ =>
    match a5_cell_to_parent cell parent_resolution with
    | .error e => .error ("a5_cell_to_parent: " ++ e)
    | .ok v => .ok v

/-- The two-argument overload of `A5CellToChildrenFun` (the one with an
explicit target resolution): validates the resolution, then calls
`a5_cell_to_children`. -/
def A5CellToChildrenFun {C : Type}
    (a5_cell_to_children : C → Int → Except String (List C))
    (cell : C) (child_resolution : Int) : Except String (List C) :=
  match ValidateResolution child_resolution "a5_cell_to_children" with
  | .error e => .error e
  | .ok _ =>
    match a5_cell_to_children cell child_resolution with
    | .error e => .error ("a5_cell_to_children: " ++ e)
    | .ok v => .ok v

/-- `A5UncompactFun`: validates the target resolution, then calls
`a5_uncompact` on the row's cell list. -/
def A5UncompactFun {C : Type}
    (a5_uncompact : List C → Int → Except String (List C))
    (cells : List C) (target_resolution : Int) : Except String (List C) :=
  match ValidateResolution target_resolution "a5_uncompact" with
  | .error e => .error e
  | .ok _ =>
    match a5_uncompact cells target_resolution with
    | .error e => .error ("a5_uncompact: " ++ e)
    | .ok v => .ok v

/-- The `compute_boundary` lambda inside `A5CellToBoundaryFun`: cell id `0`
short-circuits to an empty boundary before the Rust call; otherwise the Rust
result is returned, rethrowing its error with the function name prefixed.
(The `len == 0` branch of the source also produces an empty list entry, which
coincides with returning the empty list here.)  The vertex type is kept
generic. -/
def compute_boundary {P : Type}
    (a5_cell_to_boundary : Nat → Bool → Int → Except String (List P))
    (cell_id : Nat) (closed_ring : Bool) (segments : Int) :
    Except String (List P) :=
  if cell_id = 0 then
    .ok []
  else
    match a5_cell_to_boundary cell_id closed_ring segments with
    | .error e => .error ("a5_cell_to_boundary: " ++ e)
    | .ok pts => .ok pts

/-- One-argument overload of `A5CellToBoundaryFun`
(`args.ColumnCount() == 1`). -/
def A5CellToBoundaryFun1 {P : Type}
    (a5_cell_to_boundary : Nat → Bool → Int → Except String (List P))
    (cell_id : Nat) : Except String (List P) :=
  compute_boundary a5_cell_to_boundary cell_id true (-1)

/-- Two-argument overload of `A5CellToBoundaryFun`
(`args.ColumnCount() == 2`). -/
def A5CellToBoundaryFun2 {P : Type}
    (a5_cell_to_boundary : Nat → Bool → Int → Except String (List P))
    (cell_id : Nat) (closed_ring : Bool) : Except String (List P) :=
  compute_boundary a5_cell_to_boundary cell_id closed_ring (-1)

/-- Three-argument overload of `A5CellToBoundaryFun`
(`args.ColumnCount() == 3`): a non-positive `segments` is replaced by `-1`
before delegating. -/
def A5CellToBoundaryFun3 {P : Type}
    (a5_cell_to_boundary : Nat → Bool → Int → Except String (List P))
    (cell_id : Nat) (closed_ring : Bool) (segments : Int) :
    Except String (List P) :=
  compute_boundary a5_cell_to_boundary cell_id closed_ring
    (if segments ≤ 0 then -1 else segments)

/-- One row of the `A5CellToLonLatFun` loop: a NULL input row yields a NULL
output row without invoking the Rust conversion; otherwise
`a5_cell_to_lon_lat` is called and its error rethrown with the function name
prefixed. -/
def A5CellToLonLatRow {P : Type} (a5_cell_to_lon_lat : Nat → Except String P)
    (row : Option Nat) : Except String (Option P) :=
  match row with
  | none => .ok none
  | some cell =>
    match a5_cell_to_lon_lat cell with
    | .error e => .error ("a5_cell_to_lonlat: " ++ e)
    | .ok p => .ok (some p)

/-- `A5CellToLonLatFun` over a whole input batch: rows are processed in
order; a thrown error aborts the whole batch. -/
def A5CellToLonLatFun {P : Type} (a5_cell_to_lon_lat : Nat → Except String P) :
    List (Option Nat) → Except String (List (Option P))
  | [] => .ok []
  | row :: rest =>
    match A5CellToLonLatRow a5_cell_to_lon_lat row with
    | .error e => .error e
    | .ok v =>
      match A5CellToLonLatFun a5_cell_to_lon_lat rest with
      | .error e => .error e
      | .ok vs => .ok (v :: vs)

/-!
## Spec-modelled A5 core

The cell-identity engine (the Rust `a5` crate) is not in this repository;
the definitions below are modelled from the specification.  Per the spec the
encoding is a bijection between valid 64-bit identifiers and
`(base_cell, resolution, path)` triples, so cells are represented in decoded
form: a base cell in `[0, 12)` and an ordered path of child-selector digits
in radix 4, one digit per resolution level above 0.
-/

/-- Modelled from the spec: a decoded A5 cell identifier — one of 12 base
cells plus an ordered path of radix-4 child-selector digits. -/
structure Cell where
  base : Fin 12
  path : List (Fin 4)
deriving DecidableEq

/-- Modelled from the spec: the resolution is the depth in the hierarchy,
derivable from the identifier alone — the length of the path. -/
def resolution (c : Cell) : Nat := c.path.length

/-- Modelled from the spec: the Rust `a5_get_resolution`, total over all
identifiers, O(1). -/
def a5_get_resolution_spec (c : Cell) : Int := (resolution c : Int)

/-- Modelled from the spec: the four children of a cell — one path digit
appended, in digit order. -/
def childrenOf (c : Cell) : List Cell :=
  (List.finRange 4).map (fun d => ⟨c.base, c.path ++ [d]⟩)

/-- Modelled from the spec: the immediate parent of a cell (none for a base
cell) — the last path digit stripped. -/
def cellParent (c : Cell) : Option Cell :=
  match c.path with
  | [] => none
  | _ :: _ => some ⟨c.base, c.path.dropLast⟩

/-- Modelled from the spec: the Rust `a5_cell_to_parent` strips path digits
down to the requested depth and fails with an invalid-resolution error if
the target exceeds the cell's own resolution. -/
def a5_cell_to_parent_spec (c : Cell) (target_resolution : Int) :
    Except String Cell :=
  if (resolution c : Int) < target_resolution then
    .error "InvalidResolution"
  else
    .ok ⟨c.base, c.path.take target_resolution.toNat⟩

/-- Modelled from the spec: the geometric content of the projector — which
base cell contains a coordinate, and which child of a given cell contains
it.  The claims settled here do not depend on the actual geodesic geometry,
so both selectors are parameters. -/
structure Geometry where
  baseOf : ℚ → ℚ → Fin 12
  childOf : Cell → ℚ → ℚ → Fin 4

/-- Modelled from the spec: recursive descent of the projector — starting
from a cell, select the containing child at each of `n` further levels. -/
def descendTo (g : Geometry) (lon lat : ℚ) : Cell → Nat → Cell
  | c, 0 => c
  | c, n + 1 => descendTo g lon lat ⟨c.base, c.path ++ [g.childOf c lon lat]⟩ n

/-- Modelled from the spec: the Rust `a5_lon_lat_to_cell` — fails with an
out-of-range error for coordinates outside `[-180, 180] × [-90, 90]`,
otherwise selects the containing base cell and recursively selects the
containing child at each level down to the requested resolution. -/
def a5_lon_lat_to_cell_spec (g : Geometry) (lon lat : ℚ) (r : Int) :
    Except String Cell :=
  if lon < -180 ∨ 180 < lon ∨ lat < -90 ∨ 90 < lat then
    .error "OutOfRangeCoordinate"
  else
    .ok (descendTo g lon lat ⟨g.baseOf lon lat, []⟩ r.toNat)

/-- Modelled from the spec: all descendants of a cell `n` levels further
down (the cell itself for `n = 0`). -/
def descend (c : Cell) : Nat → List Cell
  | 0 => [c]
  | n + 1 => (childrenOf c).flatMap (fun ch => descend ch n)

/-- Modelled from the spec: expansion of a cell list to the target
resolution — every cell is replaced by all of its descendants at the target
resolution. -/
def expandList (r : Nat) : List Cell → List Cell
  | [] => []
  | c :: rest => descend c (r - resolution c) ++ expandList r rest

/-- Modelled from the spec: the Rust `a5_uncompact` — expands every input
cell to all of its descendants at the target resolution; a cell finer than
the target is an error. -/
def a5_uncompact_spec (cells : List Cell) (target_resolution : Nat) :
    Except String (List Cell) :=
  if cells.all (fun c => decide (resolution c ≤ target_resolution)) then
    .ok (expandList target_resolution cells)
  else
    .error "InvalidResolution"

/-- Modelled from the spec: scan for a complete sibling group — the first
scanned cell whose parent has all four of its children present in the full
list. -/
def mergeCandidate (full : List Cell) : List Cell → Option Cell
  | [] => none
  | c :: rest =>
    match cellParent c with
    | none => mergeCandidate full rest
    | some p =>
      if (childrenOf p).all (fun ch => decide (ch ∈ full)) then some p
      else mergeCandidate full rest

/-- Modelled from the spec: one compaction merge — replace a complete
sibling group by its parent (no merge applicable yields `none`). -/
def compactOnce (l : List Cell) : Option (List Cell) :=
  match mergeCandidate l l with
  | none => none
  | some p => some (p :: l.filter (fun c => decide (c ∉ childrenOf p)))

/-- Modelled from the spec: repeat merges until none applies (fuelled; each
merge strictly shrinks the list, so the input length is enough fuel). -/
def compactLoop : Nat → List Cell → List Cell
  | 0, l => l
  | fuel + 1, l =>
    match compactOnce l with
    | none => l
    | some l2 => compactLoop fuel l2

/-- Modelled from the spec: the Rust `a5_compact` — deduplicates the input,
then repeatedly replaces any complete sibling group with that parent until
no further merge applies. -/
def a5_compact_spec (cells : List Cell) : List Cell :=
  compactLoop cells.length cells.dedup

/-- Modelled from the spec: the subdivision points of one pentagon edge —
the edge from corner `e` to corner `(e+1) % 5` split into `s` sub-segments,
using the geodesic interpolation function `interp` (abstract here). -/
def edgePoints {P : Type} (corner : Nat → P) (interp : P → P → Nat → Nat → P)
    (s e : Nat) : List P :=
  (List.range s).map (fun j => interp (corner e) (corner ((e + 1) % 5)) s j)

/-- Modelled from the spec: the open boundary ring — each of the 5 pentagon
edges subdivided into `s` sub-segments, giving `5 * s` points. -/
def pentagonRing {P : Type} (corner : Nat → P)
    (interp : P → P → Nat → Nat → P) (s : Nat) : List P :=
  edgePoints corner interp s 0 ++ edgePoints corner interp s 1 ++
    edgePoints corner interp s 2 ++ edgePoints corner interp s 3 ++
    edgePoints corner interp s 4

/-- Modelled from the spec: the Rust `a5_cell_to_boundary` — for a valid
identifier, the pentagon ring with `segments` sub-segments per edge
(a resolution-appropriate default when `segments ≤ 0`), the first vertex
repeated at the end when `closed_ring` is set; an invalid identifier fails
with an invalid-cell error.  The corner coordinates, the geodesic
interpolation, the per-cell default segment count and the identifier
validity predicate are parameters. -/
def a5_cell_to_boundary_spec {P : Type} (corner : Nat → Nat → P)
    (interp : P → P → Nat → Nat → P) (defaultSegments : Nat → Nat)
    (valid : Nat → Bool) (cell_id : Nat) (closed_ring : Bool)
    (segments : Int) : Except String (List P) :=
  if valid cell_id then
    let s : Nat :=
      if segments ≤ 0 then defaultSegments cell_id else segments.toNat
    let ring := pentagonRing (corner cell_id) interp s
    .ok (if closed_ring then ring ++ ring.take 1 else ring)
  else
    .error "InvalidCell"

end A5

namespace A5

/-!
## Claim theorems
-/

/-- C1: every overload of `cell_to_boundary` applied to cell identifier `0`
returns an empty vertex sequence and no error, whatever the Rust boundary
function, the `closed_ring` flag and the `segments` value. -/
theorem c1_boundary_of_cell_zero_is_empty {P : Type}
    (rust : Nat → Bool → Int → Except String (List P))
    (closed_ring : Bool) (segments : Int) :
    A5CellToBoundaryFun1 rust 0 = .ok [] ∧
    A5CellToBoundaryFun2 rust 0 closed_ring = .ok [] ∧
    A5CellToBoundaryFun3 rust 0 closed_ring segments = .ok [] :=
  ⟨rfl, rfl, rfl⟩

/-- C2: every operation that takes a resolution argument (`a5_cell_area`,
`a5_get_num_cells`, `a5_lonlat_to_cell`, `a5_cell_to_parent`,
`a5_cell_to_children` with explicit target, `a5_uncompact`) rejects every
resolution outside `[0, 30]` — negatives included — with an
invalid-resolution error, never clamping, whatever the Rust functions do. -/
theorem c2_out_of_range_resolution_is_rejected {C : Type} (res : Int)
    (area : Int → ℚ) (num : Int → Nat)
    (tocell : ℚ → ℚ → Int → Except String C)
    (toparent : C → Int → Except String C)
    (tochildren : C → Int → Except String (List C))
    (unc : List C → Int → Except String (List C))
    (lon lat : ℚ) (cell : C) (cells : List C)
    (h : res < 0 ∨ MAX_RESOLUTION < res) :
    A5CellAreaFun area res =
      .error "a5_cell_area: Resolution must be between 0 and 30" ∧
    A5GetNumCellsFun num res =
      .error "a5_get_num_cells: Resolution must be between 0 and 30" ∧
    A5LonLatToCellFun tocell lon lat res =
      .error "a5_lonlat_to_cell: Resolution must be between 0 and 30" ∧
    A5CellToParentFun toparent cell res =
      .error "a5_cell_to_parent: Resolution must be between 0 and 30" ∧
    A5CellToChildrenFun tochildren cell res =
      .error "a5_cell_to_children: Resolution must be between 0 and 30" ∧
    A5UncompactFun unc cells res =
      .error "a5_uncompact: Resolution must be between 0 and 30" := by
  have hv : ∀ fn : String, ValidateResolution res fn =
      .error (fn ++ ": Resolution must be between 0 and 30") := by
    intro fn
    unfold ValidateResolution
    rw [if_pos h]
  refine ⟨?_, ?_, ?_, ?_, ?_, ?_⟩ <;>
    simp [A5CellAreaFun, A5GetNumCellsFun, A5LonLatToCellFun,
      A5CellToParentFun, A5CellToChildrenFun, A5UncompactFun, hv]

/-- C2 witness: at the negative resolution `-1` all six operations reject. -/
theorem c2_out_of_range_resolution_is_rejected_witness :
    A5CellAreaFun (fun _ => 0) (-1) =
      .error "a5_cell_area: Resolution must be between 0 and 30" ∧
    A5GetNumCellsFun (fun _ => 0) (-1) =
      .error "a5_get_num_cells: Resolution must be between 0 and 30" ∧
    A5LonLatToCellFun (fun _ _ _ => .ok 0) 0 0 (-1) =
      .error "a5_lonlat_to_cell: Resolution must be between 0 and 30" ∧
    A5CellToParentFun (fun c _ => .ok c) (0 : Nat) (-1) =
      .error "a5_cell_to_parent: Resolution must be between 0 and 30" ∧
    A5CellToChildrenFun (fun _ _ => .ok []) (0 : Nat) (-1) =
      .error "a5_cell_to_children: Resolution must be between 0 and 30" ∧
    A5UncompactFun (fun l _ => .ok l) [(0 : Nat)] (-1) =
      .error "a5_uncompact: Resolution must be between 0 and 30" :=
  c2_out_of_range_resolution_is_rejected (-1) (fun _ => 0) (fun _ => 0)
    (fun _ _ _ => .ok 0) (fun c _ => .ok c) (fun _ _ => .ok [])
    (fun l _ => .ok l) 0 0 0 [0] (Or.inl (by decide))

/-- C7: the one- and two-argument boundary overloads agree with the
three-argument overload at every non-positive `segments` value: all
overloads delegate to `compute_boundary` with the defaults filled in. -/
theorem c7_boundary_overloads_delegate {P : Type}
    (rust : Nat → Bool → Int → Except String (List P))
    (cell_id : Nat) (closed_ring : Bool) (segments : Int)
    (hs : segments ≤ 0) :
    A5CellToBoundaryFun1 rust cell_id =
      A5CellToBoundaryFun3 rust cell_id true segments ∧
    A5CellToBoundaryFun2 rust cell_id closed_ring =
      A5CellToBoundaryFun3 rust cell_id closed_ring segments := by
  unfold A5CellToBoundaryFun1 A5CellToBoundaryFun2 A5CellToBoundaryFun3
  rw [if_pos hs]
  exact ⟨rfl, rfl⟩

/-- C7 witness: at cell 3 with `segments = 0` the overloads agree. -/
theorem c7_boundary_overloads_delegate_witness :
    A5CellToBoundaryFun1 (fun _ _ _ => .ok [((0 : ℚ), (0 : ℚ))]) 3 =
      A5CellToBoundaryFun3 (fun _ _ _ => .ok [((0 : ℚ), (0 : ℚ))]) 3 true 0 ∧
    A5CellToBoundaryFun2 (fun _ _ _ => .ok [((0 : ℚ), (0 : ℚ))]) 3 false =
      A5CellToBoundaryFun3 (fun _ _ _ => .ok [((0 : ℚ), (0 : ℚ))]) 3 false 0 :=
  c7_boundary_overloads_delegate (fun _ _ _ => .ok [(0, 0)]) 3 false 0
    (by decide)

/-- C10: `a5_get_resolution` is total — for every 64-bit cell value,
including the reserved invalid identifier `0`, the wrapper returns the Rust
value as an integer with no validity check and no error branch. -/
theorem c10_get_resolution_is_total (a5_get_resolution : Nat → Int)
    (cell : Nat) (_hcell : cell < 2 ^ 64) :
    A5GetResolutionFun a5_get_resolution cell =
      .ok (a5_get_resolution cell) :=
  rfl

/-- C10 witness: totality at the reserved invalid identifier `0`. -/
theorem c10_get_resolution_is_total_witness :
    A5GetResolutionFun (fun _ => (7 : Int)) 0 = .ok 7 :=
  c10_get_resolution_is_total (fun _ => 7) 0 (by norm_num)

end A5

namespace A5

/-- Descending `n` levels adds exactly `n` path digits. -/
theorem resolution_descendTo (g : Geometry) (lon lat : ℚ) :
    ∀ (n : Nat) (c : Cell),
      resolution (descendTo g lon lat c n) = resolution c + n := by
  intro n
  induction n with
  | zero => intro c; rfl
  | succ n ih =>
    intro c
    rw [descendTo, ih]
    simp [resolution]
    omega

/-- C4: for coordinates in range and a resolution in `[0, 30]`, converting
a longitude/latitude to a cell succeeds and the resulting cell's resolution
is exactly the requested one, whatever the projection geometry. -/
theorem c4_lonlat_to_cell_resolution_roundtrip (g : Geometry)
    (lon lat : ℚ) (r : Int)
    (hlon1 : -180 ≤ lon) (hlon2 : lon ≤ 180)
    (hlat1 : -90 ≤ lat) (hlat2 : lat ≤ 90)
    (hr0 : 0 ≤ r) (hr1 : r ≤ 30) :
    ∃ c : Cell,
      A5LonLatToCellFun (a5_lon_lat_to_cell_spec g) lon lat r = .ok c ∧
      a5_get_resolution_spec c = r := by
  have hres : ¬(r < 0 ∨ r > MAX_RESOLUTION) := by
    unfold MAX_RESOLUTION
    omega
  have hrange : ¬(lon < -180 ∨ 180 < lon ∨ lat < -90 ∨ 90 < lat) := by
    push_neg
    exact ⟨by linarith, by linarith, by linarith, by linarith⟩
  refine ⟨descendTo g lon lat ⟨g.baseOf lon lat, []⟩ r.toNat, ?_, ?_⟩
  · simp [A5LonLatToCellFun, ValidateResolution, hres,
      a5_lon_lat_to_cell_spec, hrange]
  · have hd := resolution_descendTo g lon lat r.toNat
      ⟨g.baseOf lon lat, []⟩
    simp only [resolution, List.length_nil, Nat.zero_add] at hd
    simp only [a5_get_resolution_spec, resolution, hd]
    omega

/-- C4 witness: at `(0, 0)` and resolution 5 (with a concrete geometry) the
returned cell has resolution 5. -/
theorem c4_lonlat_to_cell_resolution_roundtrip_witness :
    ∃ c : Cell,
      A5LonLatToCellFun
        (a5_lon_lat_to_cell_spec ⟨fun _ _ => 0, fun _ _ _ => 0⟩) 0 0 5 =
        .ok c ∧
      a5_get_resolution_spec c = 5 :=
  c4_lonlat_to_cell_resolution_roundtrip ⟨fun _ _ => 0, fun _ _ _ => 0⟩
    0 0 5 (by norm_num) (by norm_num) (by norm_num) (by norm_num)
    (by norm_num) (by norm_num)

/-- The wrapped parent operation succeeds on a valid cell whenever the
target does not exceed the cell's resolution, and truncates the path. -/
theorem cellToParentFun_ok (c : Cell) (k : Nat)
    (hk : k ≤ resolution c) (h30 : resolution c ≤ 30) :
    A5CellToParentFun a5_cell_to_parent_spec c (k : Int) =
      .ok ⟨c.base, c.path.take k⟩ := by
  have hres : ¬((k : Int) < 0 ∨ (k : Int) > MAX_RESOLUTION) := by
    unfold MAX_RESOLUTION
    omega
  have hlt : ¬((resolution c : Int) < (k : Int)) := by omega
  simp [A5CellToParentFun, ValidateResolution, hres,
    a5_cell_to_parent_spec, hlt]

/-- C5: the parent at resolution `r ≤ resolution c` has resolution exactly
`r`, and repeated parent calls are consistent:
`parent (parent c r1) r2 = parent c r2` for `r2 ≤ r1 ≤ resolution c`. -/
theorem c5_cell_to_parent_monotone (c : Cell) (r r1 r2 : Nat)
    (hvalid : resolution c ≤ 30) (hr : r ≤ resolution c)
    (h21 : r2 ≤ r1) (h1 : r1 ≤ resolution c) :
    (∃ p, A5CellToParentFun a5_cell_to_parent_spec c (r : Int) = .ok p ∧
      a5_get_resolution_spec p = (r : Int)) ∧
    (∃ p1 p12 p2,
      A5CellToParentFun a5_cell_to_parent_spec c (r1 : Int) = .ok p1 ∧
      A5CellToParentFun a5_cell_to_parent_spec p1 (r2 : Int) = .ok p12 ∧
      A5CellToParentFun a5_cell_to_parent_spec c (r2 : Int) = .ok p2 ∧
      p12 = p2) := by
  simp only [resolution] at hvalid hr h1
  constructor
  · refine ⟨⟨c.base, c.path.take r⟩, cellToParentFun_ok c r hr hvalid, ?_⟩
    simp [a5_get_resolution_spec, resolution]
    omega
  · have hres1 : resolution (⟨c.base, c.path.take r1⟩ : Cell) = r1 := by
      simp [resolution]
      omega
    refine ⟨⟨c.base, c.path.take r1⟩, ⟨c.base, (c.path.take r1).take r2⟩,
      ⟨c.base, c.path.take r2⟩, cellToParentFun_ok c r1 h1 hvalid, ?_, ?_, ?_⟩
    · exact cellToParentFun_ok ⟨c.base, c.path.take r1⟩ r2
        (by rw [hres1]; exact le_trans h21 le_rfl) (by rw [hres1]; omega)
    · exact cellToParentFun_ok c r2 (le_trans h21 h1) hvalid
    · rw [List.take_take, min_eq_left h21]

/-- C5 witness: a concrete resolution-3 cell, `r = 2`, `r1 = 2`, `r2 = 1`. -/
theorem c5_cell_to_parent_monotone_witness :
    (∃ p, A5CellToParentFun a5_cell_to_parent_spec ⟨0, [0, 1, 2]⟩ (2 : Int) =
        .ok p ∧ a5_get_resolution_spec p = 2) ∧
    (∃ p1 p12 p2,
      A5CellToParentFun a5_cell_to_parent_spec ⟨0, [0, 1, 2]⟩ (2 : Int) =
        .ok p1 ∧
      A5CellToParentFun a5_cell_to_parent_spec p1 (1 : Int) = .ok p12 ∧
      A5CellToParentFun a5_cell_to_parent_spec ⟨0, [0, 1, 2]⟩ (1 : Int) =
        .ok p2 ∧
      p12 = p2) :=
  c5_cell_to_parent_monotone ⟨0, [0, 1, 2]⟩ 2 2 1 (by decide) (by decide)
    (by decide) (by decide)

end A5

namespace A5

/-- The open pentagon ring has `5 * s` points: 5 edges of `s` points. -/
theorem length_pentagonRing {P : Type} (corner : Nat → P)
    (interp : P → P → Nat → Nat → P) (s : Nat) :
    (pentagonRing corner interp s).length = 5 * s := by
  simp [pentagonRing, edgePoints]
  ring

/-- C6: for a valid nonzero cell and an explicit `segments` value `s > 0`,
the closed-ring boundary has exactly `5 * s + 1` vertices and its first
vertex equals its last, whatever the cell geometry. -/
theorem c6_closed_boundary_vertex_count {P : Type} (corner : Nat → Nat → P)
    (interp : P → P → Nat → Nat → P) (defaultSegments : Nat → Nat)
    (valid : Nat → Bool) (cell_id : Nat) (s : Nat)
    (hcell : cell_id ≠ 0) (hvalid : valid cell_id = true) (hs : 0 < s) :
    ∃ pts,
      A5CellToBoundaryFun3
        (a5_cell_to_boundary_spec corner interp defaultSegments valid)
        cell_id true (s : Int) = .ok pts ∧
      pts.length = 5 * s + 1 ∧ pts.head? = pts.getLast? ∧ pts ≠ [] := by
  have hseg : ¬((s : Int) ≤ 0) := by omega
  have hok : A5CellToBoundaryFun3
      (a5_cell_to_boundary_spec corner interp defaultSegments valid)
      cell_id true (s : Int) =
      .ok (pentagonRing (corner cell_id) interp s ++
        (pentagonRing (corner cell_id) interp s).take 1) := by
    simp [A5CellToBoundaryFun3, compute_boundary, hcell,
      a5_cell_to_boundary_spec, hvalid, hseg, Int.toNat_natCast]
  refine ⟨_, hok, ?_, ?_, ?_⟩
  · rcases hr : pentagonRing (corner cell_id) interp s with _ | ⟨hd, tl⟩
    · have := length_pentagonRing (corner cell_id) interp s
      rw [hr] at this
      simp at this
      omega
    · have := length_pentagonRing (corner cell_id) interp s
      rw [hr] at this
      simp only [List.length_cons] at this
      simp [List.length_append]
      omega
  · rcases hr : pentagonRing (corner cell_id) interp s with _ | ⟨hd, tl⟩
    · have := length_pentagonRing (corner cell_id) interp s
      rw [hr] at this
      simp at this
      omega
    · rw [List.take_succ_cons, List.take_zero, List.getLast?_concat]
      rfl
  · rcases hr : pentagonRing (corner cell_id) interp s with _ | ⟨hd, tl⟩
    · have := length_pentagonRing (corner cell_id) interp s
      rw [hr] at this
      simp at this
      omega
    · simp

/-- C6 witness: a concrete geometry at cell 1 with 2 segments per edge
yields 11 vertices with first equal to last. -/
theorem c6_closed_boundary_vertex_count_witness :
    ∃ pts : List Nat,
      A5CellToBoundaryFun3
        (a5_cell_to_boundary_spec (fun _ e => e)
          (fun a _ _ j => a + j) (fun _ => 10) (fun _ => true))
        1 true (2 : Int) = .ok pts ∧
      pts.length = 5 * 2 + 1 ∧ pts.head? = pts.getLast? ∧ pts ≠ [] :=
  c6_closed_boundary_vertex_count (fun _ e => e) (fun a _ _ j => a + j)
    (fun _ => 10) (fun _ => true) 1 2 (by decide) (by decide) (by decide)

/-- C9: in a `a5_cell_to_lonlat` batch, NULL rows yield NULL results and
never invoke the conversion or raise an error; non-NULL rows each receive
their own conversion value.  The first conjunct pins the whole output down;
the second shows the result only depends on the conversion's values at the
non-NULL cells actually present in the batch. -/
theorem c9_null_rows_propagate {P : Type}
    (rust rust2 : Nat → Except String P) :
    ∀ rows : List (Option Nat),
      (∀ c : Nat, some c ∈ rows → rust c = rust2 c) →
      (∀ c : Nat, some c ∈ rows → (rust c).isOk = true) →
      A5CellToLonLatFun rust rows =
        .ok (rows.map (fun row => row.bind (fun c => (rust c).toOption))) ∧
      A5CellToLonLatFun rust rows = A5CellToLonLatFun rust2 rows := by
  intro rows
  induction rows with
  | nil => intro _ _; exact ⟨rfl, rfl⟩
  | cons row rest ih =>
    intro hagree hok
    obtain ⟨ih1, ih2⟩ := ih
      (fun c hc => hagree c (List.mem_cons_of_mem _ hc))
      (fun c hc => hok c (List.mem_cons_of_mem _ hc))
    match row with
    | none =>
      constructor
      · simp [A5CellToLonLatFun, A5CellToLonLatRow, ih1]
      · simp [A5CellToLonLatFun, A5CellToLonLatRow, ih2]
    | some cell =>
      have hcok : (rust cell).isOk = true := hok cell (List.mem_cons_self _ _)
      match hrc : rust cell with
      | .error e => rw [hrc] at hcok; simp [Except.isOk, Except.toBool] at hcok
      | .ok p =>
        have hrc2 : rust2 cell = .ok p := by
          rw [← hagree cell (List.mem_cons_self _ _), hrc]
        constructor
        · simp [A5CellToLonLatFun, A5CellToLonLatRow, hrc, ih1,
            Except.toOption]
        · simp [A5CellToLonLatFun, A5CellToLonLatRow, hrc, hrc2, ih2]

/-- C9 witness: a batch with a NULL row and the cell `1`; the NULL row
yields NULL, the batch succeeds, and a conversion differing only at a cell
not in the batch gives the identical result. -/
theorem c9_null_rows_propagate_witness :
    A5CellToLonLatFun (fun c => .ok c) [none, some 1] =
      .ok [none, some 1] ∧
    A5CellToLonLatFun (fun c => .ok c) [none, some 1] =
      A5CellToLonLatFun
        (fun c => if c = 99 then .error "boom" else .ok c) [none, some 1] := by
  have h := c9_null_rows_propagate (fun c => (.ok c : Except String Nat))
    (fun c => if c = 99 then .error "boom" else .ok c) [none, some 1]
    (by intro c hc; simp at hc; subst hc; rfl)
    (by intro c hc; simp at hc; subst hc; rfl)
  exact ⟨h.1, h.2⟩

end A5

namespace A5

/-- Membership in `childrenOf`: exactly the four one-digit extensions. -/
theorem mem_childrenOf (p x : Cell) :
    x ∈ childrenOf p ↔ ∃ d : Fin 4, x = ⟨p.base, p.path ++ [d]⟩ := by
  simp [childrenOf, List.mem_map]
  constructor
  · rintro ⟨d, hd⟩; exact ⟨d, hd.symm⟩
  · rintro ⟨d, hd⟩; exact ⟨d, hd.symm⟩

/-- A child is one resolution level below its parent. -/
theorem resolution_of_child {p ch : Cell} (h : ch ∈ childrenOf p) :
    resolution ch = resolution p + 1 := by
  rw [mem_childrenOf] at h
  obtain ⟨d, rfl⟩ := h
  simp [resolution]

/-- Membership in `descend c n`: same base, path extended by exactly `n`
digits. -/
theorem mem_descend : ∀ (n : Nat) (c x : Cell),
    x ∈ descend c n ↔
      x.base = c.base ∧ ∃ t, x.path = c.path ++ t ∧ t.length = n := by
  intro n
  induction n with
  | zero =>
    intro c x
    simp only [descend, List.mem_singleton]
    constructor
    · rintro rfl
      exact ⟨rfl, [], by simp, rfl⟩
    · rintro ⟨hb, t, hp, ht⟩
      rw [List.length_eq_zero] at ht
      subst ht
      simp only [List.append_nil] at hp
      cases x
      cases c
      simp_all
  | succ n ih =>
    intro c x
    simp only [descend, List.mem_flatMap]
    constructor
    · rintro ⟨ch, hch, hx⟩
      rw [mem_childrenOf] at hch
      obtain ⟨d, rfl⟩ := hch
      rw [ih] at hx
      obtain ⟨hb, t, hp, ht⟩ := hx
      refine ⟨by simpa using hb, d :: t, ?_, by simp [ht]⟩
      simpa [List.append_assoc] using hp
    · rintro ⟨hb, t, hp, ht⟩
      cases t with
      | nil => simp at ht
      | cons d t2 =>
        refine ⟨⟨c.base, c.path ++ [d]⟩, ?_, ?_⟩
        · rw [mem_childrenOf]
          exact ⟨d, rfl⟩
        · rw [ih]
          refine ⟨by simpa using hb, t2, ?_, by simpa using ht⟩
          simpa [List.append_assoc] using hp

/-- Membership in the expansion of a cell list. -/
theorem mem_expandList (r : Nat) :
    ∀ (l : List Cell) (x : Cell),
      x ∈ expandList r l ↔ ∃ c ∈ l, x ∈ descend c (r - resolution c) := by
  intro l
  induction l with
  | nil => intro x; simp [expandList]
  | cons c rest ih =>
    intro x
    simp [expandList, List.mem_append, ih]

/-- A successful `mergeCandidate` scan returns a parent all four of whose
children are present in the full list. -/
theorem mergeCandidate_spec (full : List Cell) :
    ∀ (scan : List Cell) (p : Cell), mergeCandidate full scan = some p →
      ∀ ch ∈ childrenOf p, ch ∈ full := by
  intro scan
  induction scan with
  | nil => intro p h; simp [mergeCandidate] at h
  | cons c rest ih =>
    intro p h
    unfold mergeCandidate at h
    rcases hcp : cellParent c with _ | q
    · simp only [hcp] at h
      exact ih p h
    · simp only [hcp] at h
      by_cases hall : (childrenOf q).all (fun ch => decide (ch ∈ full)) = true
      · rw [if_pos hall] at h
        injection h with h2
        subst h2
        intro ch hch
        have := List.all_eq_true.mp hall ch hch
        simpa using this
      · rw [if_neg hall] at h
        exact ih p h

/-- A successful merge step replaces a complete sibling quartet with its
parent. -/
theorem compactOnce_eq_some {l l2 : List Cell} (h : compactOnce l = some l2) :
    ∃ p, (∀ ch ∈ childrenOf p, ch ∈ l) ∧
      l2 = p :: l.filter (fun c => decide (c ∉ childrenOf p)) := by
  unfold compactOnce at h
  rcases hmc : mergeCandidate l l with _ | p
  · simp only [hmc] at h
    exact Option.noConfusion h
  · simp only [hmc] at h
    injection h with h2
    exact ⟨p, mergeCandidate_spec l l p hmc, h2.symm⟩

/-- One merge step preserves the resolution bound and, as a set, the
expansion to any resolution `r` dominating the list. -/
theorem compactOnce_expand {l l2 : List Cell} {r : Nat}
    (hres : ∀ c ∈ l, resolution c ≤ r) (h : compactOnce l = some l2) :
    (∀ c ∈ l2, resolution c ≤ r) ∧
    (∀ x : Cell, (∃ c ∈ l2, x ∈ descend c (r - resolution c)) ↔
      (∃ c ∈ l, x ∈ descend c (r - resolution c))) := by
  obtain ⟨p, hfull, rfl⟩ := compactOnce_eq_some h
  have hchild0 : (⟨p.base, p.path ++ [0]⟩ : Cell) ∈ l := by
    apply hfull
    rw [mem_childrenOf]
    exact ⟨0, rfl⟩
  have hrp : resolution p + 1 ≤ r := by
    have := hres _ hchild0
    simp only [resolution, List.length_append, List.length_singleton] at this
    simp only [resolution]
    omega
  constructor
  · intro c hc
    rcases List.mem_cons.mp hc with rfl | hc2
    · omega
    · exact hres c (List.mem_filter.mp hc2).1
  · intro x
    constructor
    · rintro ⟨c, hc, hx⟩
      rcases List.mem_cons.mp hc with rfl | hc2
      · rw [mem_descend] at hx
        obtain ⟨hb, t, hp, ht⟩ := hx
        cases t with
        | nil =>
          exfalso
          simp at ht
          omega
        | cons d t2 =>
          refine ⟨⟨c.base, c.path ++ [d]⟩, hfull _ ?_, ?_⟩
          · rw [mem_childrenOf]
            exact ⟨d, rfl⟩
          · rw [mem_descend]
            refine ⟨by simpa using hb, t2, ?_, ?_⟩
            · simpa [List.append_assoc] using hp
            · simp only [List.length_cons] at ht
              simp only [resolution, List.length_append,
                List.length_singleton]
              simp only [resolution] at ht hrp
              omega
      · exact ⟨c, (List.mem_filter.mp hc2).1, hx⟩
    · rintro ⟨c, hc, hx⟩
      by_cases hch : c ∈ childrenOf p
      · obtain ⟨d, rfl⟩ := (mem_childrenOf p c).mp hch
        refine ⟨p, List.mem_cons_self _ _, ?_⟩
        rw [mem_descend] at hx ⊢
        obtain ⟨hb, t, hp2, ht⟩ := hx
        refine ⟨by simpa using hb, d :: t, ?_, ?_⟩
        · simpa [List.append_assoc] using hp2
        · simp only [List.length_cons, ht]
          simp only [resolution, List.length_append,
            List.length_singleton] at ht ⊢
          simp only [resolution] at hrp
          omega
      · exact ⟨c, List.mem_cons_of_mem _
          (List.mem_filter.mpr ⟨hc, decide_eq_true hch⟩), hx⟩

/-- The full merge loop preserves the resolution bound and the expansion
set. -/
theorem compactLoop_expand (r : Nat) :
    ∀ (fuel : Nat) (l : List Cell), (∀ c ∈ l, resolution c ≤ r) →
      (∀ c ∈ compactLoop fuel l, resolution c ≤ r) ∧
      (∀ x : Cell,
        (∃ c ∈ compactLoop fuel l, x ∈ descend c (r - resolution c)) ↔
        (∃ c ∈ l, x ∈ descend c (r - resolution c))) := by
  intro fuel
  induction fuel with
  | zero => intro l hl; exact ⟨hl, fun x => Iff.rfl⟩
  | succ fuel ih =>
    intro l hl
    rcases hco : compactOnce l with _ | l2
    · have heq : compactLoop (fuel + 1) l = l := by
        simp [compactLoop, hco]
      rw [heq]
      exact ⟨hl, fun x => Iff.rfl⟩
    · have heq : compactLoop (fuel + 1) l = compactLoop fuel l2 := by
        simp [compactLoop, hco]
      obtain ⟨h1, h2⟩ := compactOnce_expand hl hco
      obtain ⟨h3, h4⟩ := ih l2 h1
      rw [heq]
      exact ⟨h3, fun x => (h4 x).trans (h2 x)⟩

/-- C3: for every cell list whose members are all at resolution at most
`r`, uncompacting the compacted list to `r` yields the same cell set as
uncompacting the original list to `r`. -/
theorem c3_compact_uncompact_roundtrip (S : List Cell) (r : Nat)
    (hS : ∀ c ∈ S, resolution c ≤ r) :
    ∃ out1 out2,
      a5_uncompact_spec (a5_compact_spec S) r = .ok out1 ∧
      a5_uncompact_spec S r = .ok out2 ∧
      (∀ x, x ∈ out1 ↔ x ∈ out2) := by
  have hdS : ∀ c ∈ S.dedup, resolution c ≤ r := fun c hc =>
    hS c (List.mem_dedup.mp hc)
  obtain ⟨h1, h2⟩ := compactLoop_expand r S.length S.dedup hdS
  have hall1 : (a5_compact_spec S).all
      (fun c => decide (resolution c ≤ r)) = true := by
    rw [List.all_eq_true]
    intro c hc
    exact decide_eq_true (h1 c hc)
  have hall2 : S.all (fun c => decide (resolution c ≤ r)) = true := by
    rw [List.all_eq_true]
    intro c hc
    exact decide_eq_true (hS c hc)
  refine ⟨expandList r (a5_compact_spec S), expandList r S, ?_, ?_, ?_⟩
  · simp [a5_uncompact_spec, hall1]
  · simp [a5_uncompact_spec, hall2]
  · intro x
    rw [mem_expandList, mem_expandList]
    refine Iff.trans ?_ (Iff.trans (h2 x) ?_)
    · exact Iff.rfl
    · constructor
      · rintro ⟨c, hc, hx⟩
        exact ⟨c, List.mem_dedup.mp hc, hx⟩
      · rintro ⟨c, hc, hx⟩
        exact ⟨c, List.mem_dedup.mpr hc, hx⟩

/-- C3 witness: a complete sibling quartet at resolution 1 compacts to its
parent, and both lists uncompact to the same set at resolution 1. -/
theorem c3_compact_uncompact_roundtrip_witness :
    ∃ out1 out2,
      a5_uncompact_spec
        (a5_compact_spec [⟨0, [0]⟩, ⟨0, [1]⟩, ⟨0, [2]⟩, ⟨0, [3]⟩]) 1 =
        .ok out1 ∧
      a5_uncompact_spec [⟨0, [0]⟩, ⟨0, [1]⟩, ⟨0, [2]⟩, ⟨0, [3]⟩] 1 =
        .ok out2 ∧
      (∀ x, x ∈ out1 ↔ x ∈ out2) :=
  c3_compact_uncompact_roundtrip [⟨0, [0]⟩, ⟨0, [1]⟩, ⟨0, [2]⟩, ⟨0, [3]⟩] 1
    (by decide)

end A5
